import Mathlib

/-!
# Verification of the mouse-movement simulator (`main.py` / `config.py`)

Shallow embedding of the core logic of the repository:

* the boundary calculator `get_screen_bounds` (main.py lines 148-185),
* the position samplers `get_next_position` (188-210) and
  `get_small_movement_position` (213-238),
* the trajectory generators `linear_mouse_move` (241-275) and
  `human_like_mouse_move` (278-345),
* the movement-type selector `choose_movement_type` (348-376) and the
  scheduler's consecutive-count update in `main` (477-497),
* the exit-code behaviour of `main` (431-432, 516-521).

Modelling conventions:

* Python's float arithmetic is embedded as exact rational arithmetic (`ℚ`);
  Python's `int()` truncation toward zero is `pyInt`.
* Randomness is an explicit oracle: `random.randint(a, b)` is modelled by
  `randint a b r` for an arbitrary oracle value `r`, whose image is exactly
  the inclusive interval `[a, b]`; `random.uniform(a, b)` is modelled by
  `uniformQ a b u` for an oracle `u` (intended in `[0,1]`), whose image for
  `a ≤ b` is exactly `[a, b]`.
* The unbounded rejection loop of `get_small_movement_position` is given
  explicit fuel and returns `none` when the fuel runs out mid-loop.
* Python exceptions are `Except String`.
-/

namespace MouseSim

/-- Python `int()` applied to an exact rational: truncation toward zero
(`Int.div` truncates toward zero, and `q.den > 0`). -/
def pyInt (q : ℚ) : ℤ := Int.tdiv q.num q.den

/-- `random.randint lo hi` (inclusive on both ends), driven by an integer
oracle `r`.  For `lo ≤ hi` the result ranges over exactly `[lo, hi]`. -/
def randint (lo hi : ℤ) (r : ℤ) : ℤ := lo + r % (hi - lo + 1)

/-- `random.uniform lo hi`, driven by a rational oracle `u` (intended in
`[0,1]`): `lo + (hi - lo) * u`.  For `lo = hi` the result is exactly `lo`
whatever `u` is, matching Python. -/
def uniformQ (lo hi u : ℚ) : ℚ := lo + (hi - lo) * u

/-! ## Boundary calculator (main.py 148-185) -/

/-- Helper for `get_screen_bounds`: given the four expanded margins,
compute and validate the bounds (main.py lines 176-185). -/
def boundsFrom (screen_width screen_height left top right bottom : ℤ) :
    Except String (ℤ × ℤ × ℤ × ℤ) :=
  let min_x := left
  let min_y := top
  let max_x := screen_width - right
  let max_y := screen_height - bottom
  if min_x ≥ max_x ∨ min_y ≥ max_y then
    Except.error "Screen margins are too large for the screen dimensions"
  else
    Except.ok (min_x, min_y, max_x, max_y)

/-- `get_screen_bounds` (main.py 148-185), as a function of the screen
dimensions and of the configuration values `SCREEN_MARGIN` and
`ENABLE_SCREEN_SAFE_ZONE` it reads. -/
def get_screen_bounds (screen_width screen_height : ℤ)
    (screen_margin : List ℤ) (enable_screen_safe_zone : Bool) :
    Except String (ℤ × ℤ × ℤ × ℤ) :=
  if ¬enable_screen_safe_zone then
    Except.ok (0, 0, screen_width, screen_height)
  else
    match screen_margin with
    | [m] => boundsFrom screen_width screen_height m m m m
    | [h, v] => boundsFrom screen_width screen_height h v h v
    | [l, t, r, b] => boundsFrom screen_width screen_height l t r b
    | _ => Except.error "SCREEN_MARGIN must have 1, 2, or 4 values"

/-- Spec-side margin expansion (§3 MarginSpec, §4.1): 1 value → all four
sides, 2 values → horizontal then vertical, 4 values → left, top, right,
bottom; any other arity is invalid.  Used to compare `get_screen_bounds`
against the specified rule. -/
def expandMargin : List ℤ → Option (ℤ × ℤ × ℤ × ℤ)
  | [m] => some (m, m, m, m)
  | [h, v] => some (h, v, h, v)
  | [l, t, r, b] => some (l, t, r, b)
  | _ => none

/-- Spec-side predicate: the margins, expanded per the arity rule, do not
fit on the screen (`min_x ≥ max_x` or `min_y ≥ max_y`). -/
def marginTooLarge (screen_width screen_height : ℤ) (margin : List ℤ) : Prop :=
  ∃ l t r b, expandMargin margin = some (l, t, r, b) ∧
    (l ≥ screen_width - r ∨ t ≥ screen_height - b)

instance (w h : ℤ) (m : List ℤ) : Decidable (marginTooLarge w h m) :=
  match hm : expandMargin m with
  | none => Decidable.isFalse (by simp [marginTooLarge, hm])
  | some (l, t, r, b) =>
    decidable_of_iff (l ≥ w - r ∨ t ≥ h - b) (by
      constructor
      · intro hor
        exact ⟨l, t, r, b, hm, hor⟩
      · rintro ⟨l', t', r', b', hm', hor⟩
        rw [hm] at hm'
        cases hm'
        exact hor)

/-! ## Position samplers (main.py 188-238) -/

/-- `get_next_position` (main.py 188-210): validates the rectangle and
draws an inclusive-uniform point, driven by the oracle values `rx`, `ry`. -/
def get_next_position (max_x max_y : ℤ) (min_x min_y : ℤ) (rx ry : ℤ) :
    Except String (ℤ × ℤ) :=
  if min_x ≥ max_x then Except.error "min_x must be less than max_x"
  else if min_y ≥ max_y then Except.error "min_y must be less than max_y"
  else Except.ok (randint min_x max_x rx, randint min_y max_y ry)

/-- The rejection loop of `get_small_movement_position` (main.py 234-238),
with explicit fuel.  `k` indexes the oracle stream; the real loop is
unbounded, so running out of fuel (`none`) only means "still looping".
The source's acceptance test is `math.sqrt(dx² + dy²) ≥ min`; for the
non-negative configured minimum this is equivalent to the squared form
used here. -/
def smallMoveLoop (small_min : ℤ) (min_x max_x min_y max_y : ℤ)
    (current_x current_y : ℤ) (rng : ℕ → ℤ × ℤ) :
    ℕ → ℕ → Except String (Option (ℤ × ℤ))
  | _, 0 => Except.ok none
  | k, fuel + 1 =>
    match get_next_position max_x max_y min_x min_y (rng k).1 (rng k).2 with
    | Except.error e => Except.error e
    | Except.ok (target_x, target_y) =>
      if small_min ^ 2 ≤ (target_x - current_x) ^ 2 + (target_y - current_y) ^ 2 then
        Except.ok (some (target_x, target_y))
      else
        smallMoveLoop small_min min_x max_x min_y max_y current_x current_y rng (k + 1) fuel

/-- `get_small_movement_position` (main.py 213-238), as a function of the
current position, the screen dimensions and the configuration pair
`SMALL_MOVEMENT_RANGE = (small_min, small_max)`.  The search window is
clamped to `[0, screen_width] × [0, screen_height]` only — it is *not*
intersected with the safe rectangle of `get_screen_bounds`. -/
def get_small_movement_position (screen_width screen_height : ℤ)
    (small_min small_max : ℤ) (current_x current_y : ℤ)
    (rng : ℕ → ℤ × ℤ) (fuel : ℕ) : Except String (Option (ℤ × ℤ)) :=
  let min_x := max 0 (current_x - small_max)
  let max_x := min screen_width (current_x + small_max)
  let min_y := max 0 (current_y - small_max)
  let max_y := min screen_height (current_y + small_max)
  smallMoveLoop small_min min_x max_x min_y max_y current_x current_y rng 0 fuel

/-! ## Binary64 rounding

Python floats are IEEE-754 binary64.  `fl` is round-to-nearest, ties to
even, over exact rationals: scale the magnitude into `[2^52, 2^53)`, round
the significand to the nearest integer (ties to even), scale back.  The
exponent is unbounded — overflow and subnormals are not modelled, which is
exact for every magnitude this program manipulates (screen coordinates,
step counts and their quotients). -/

/-- Round a rational to the nearest integer, ties to even (the IEEE-754
default rounding of a scaled significand). -/
def rhe (s : ℚ) : ℤ :=
  let n := ⌊s⌋
  let frac := s - n
  if frac < 1/2 then n
  else if 1/2 < frac then n + 1
  else if Even n then n else n + 1

/-- Binary64 rounding of a positive rational. -/
def flPos (q : ℚ) : ℚ :=
  (rhe (q * (2:ℚ) ^ (52 - Int.log 2 q)) : ℚ) * (2:ℚ) ^ (Int.log 2 q - 52)

/-- Binary64 round-to-nearest-even of a rational. -/
def fl (q : ℚ) : ℚ :=
  if q < 0 then -flPos (-q) else if q = 0 then 0 else flPos q

/-! ## Trajectory generators (main.py 241-345) -/

/-- The emitted trajectory of `linear_mouse_move` (main.py 241-275): the
list of `(point, delay)` pairs written to the cursor, as a function of the
start position read at plan time, the target, and the drawn `step_interval`
and `steps`.  The arithmetic of lines 259-264 is Python binary64 float
arithmetic, embedded through `fl`: `x_increment = (target_x - start_x) /
steps` is the correctly rounded true quotient (the operands are exact
ints), and `int(start_x + x_increment * step)` rounds the product and the
sum once each (`step` and `start_x` convert to float exactly for every
realistic magnitude, i.e. below `2^53`).  Step `k+1` then writes the
truncation of that float per axis, plus an optional jitter draw from
`[-J, J]`, and sleeps `step_interval`. -/
def linear_mouse_move (start_x start_y target_x target_y : ℤ)
    (step_interval : ℚ) (steps : ℕ)
    (enable_jitter : Bool) (jitter_intensity : ℤ) (jit : ℕ → ℤ × ℤ) :
    List ((ℤ × ℤ) × ℚ) :=
  let x_increment : ℚ := fl ((target_x - start_x) / steps)
  let y_increment : ℚ := fl ((target_y - start_y) / steps)
  (List.range steps).map fun k =>
    let step : ℕ := k + 1
    let current_x := pyInt (fl (start_x + fl (x_increment * step)))
    let current_y := pyInt (fl (start_y + fl (y_increment * step)))
    let pt :=
      if enable_jitter then
        (current_x + randint (-jitter_intensity) jitter_intensity (jit k).1,
         current_y + randint (-jitter_intensity) jitter_intensity (jit k).2)
      else (current_x, current_y)
    (pt, step_interval)

/-- The cubic-Bezier blend of main.py lines 320-332:
`(1-t)³·p0 + 3(1-t)²t·c1 + 3(1-t)t²·c2 + t³·p3`. -/
def bezierBlend (p0 c1 c2 p3 t : ℚ) : ℚ :=
  (1 - t) ^ 3 * p0 + 3 * (1 - t) ^ 2 * t * c1 + 3 * (1 - t) * t ^ 2 * c2 + t ^ 3 * p3

/-- The emitted trajectory of `human_like_mouse_move` (main.py 278-345).

`distance` stands for `math.sqrt(dx² + dy²)` (line 294): the square root is
irrational, so it is passed as a parameter and the theorems hold for every
value of it — in particular for the true distance.  The four `u`-oracles
drive the `random.uniform(-offset_range, offset_range)` control-point
offsets (lines 305-310), `delay_u` the `random.uniform(-0.005, 0.005)`
delay perturbation (line 344); `3/10` and `7/10` model the literals `0.3`
and `0.7`.  `steps = int(movement_duration / step_interval)` (line 313);
when it is `0`, line 317 (`t = i / steps`) raises `ZeroDivisionError` on
the loop's first iteration. -/
def human_like_mouse_move (start_x start_y target_x target_y : ℤ)
    (distance : ℚ) (movement_duration step_interval curvature_factor : ℚ)
    (u1x u1y u2x u2y : ℚ)
    (enable_jitter : Bool) (jitter_intensity : ℤ) (jit : ℕ → ℤ × ℤ)
    (delay_u : ℕ → ℚ) : Except String (List ((ℤ × ℤ) × ℚ)) :=
  let dx : ℚ := target_x - start_x
  let dy : ℚ := target_y - start_y
  let offset_range := distance * curvature_factor
  let ctrl1_x := start_x + dx * (3 / 10) + uniformQ (-offset_range) offset_range u1x
  let ctrl1_y := start_y + dy * (3 / 10) + uniformQ (-offset_range) offset_range u1y
  let ctrl2_x := start_x + dx * (7 / 10) + uniformQ (-offset_range) offset_range u2x
  let ctrl2_y := start_y + dy * (7 / 10) + uniformQ (-offset_range) offset_range u2y
  let steps : ℤ := pyInt (movement_duration / step_interval)
  if steps = 0 then
    Except.error "ZeroDivisionError: division by zero"
  else
    Except.ok ((List.range (steps + 1).toNat).map fun (i : ℕ) =>
      let t : ℚ := (i : ℚ) / (steps : ℚ)
      let current_x := bezierBlend start_x ctrl1_x ctrl2_x target_x t
      let current_y := bezierBlend start_y ctrl1_y ctrl2_y target_y t
      let jxy :=
        if enable_jitter then
          (randint (-jitter_intensity) jitter_intensity (jit i).1,
           randint (-jitter_intensity) jitter_intensity (jit i).2)
        else ((0 : ℤ), (0 : ℤ))
      let variable_interval := step_interval + uniformQ (-(5 / 1000)) (5 / 1000) (delay_u i)
      ((pyInt (current_x + jxy.1), pyInt (current_y + jxy.2)),
       max (1 / 1000) variable_interval))

/-! ## Movement-type selector and scheduler state (main.py 348-376, 450-497) -/

/-- The two movement styles. -/
inductive MType
  | linear
  | bezier
deriving DecidableEq, Repr

/-- The other movement style (`'bezier' if movement_type == 'linear' else
'linear'`, main.py lines 482 and 494). -/
def MType.other : MType → MType
  | MType.linear => MType.bezier
  | MType.bezier => MType.linear

/-- The scheduler's mutable run state (main.py lines 451-452): the
`consecutive_count` dict and `last_movement_type`. -/
structure RunState where
  linear_count : ℕ
  bezier_count : ℕ
  last_movement_type : Option MType
deriving DecidableEq, Repr

/-- `consecutive_count[t]`. -/
def RunState.count (s : RunState) : MType → ℕ
  | MType.linear => s.linear_count
  | MType.bezier => s.bezier_count

/-- `consecutive_count[t] = n`. -/
def RunState.setCount (s : RunState) : MType → ℕ → RunState
  | MType.linear, n => { s with linear_count := n }
  | MType.bezier, n => { s with bezier_count := n }

/-- The state at loop entry: `consecutive_count = {'linear': 0,
'bezier': 0}`, `last_movement_type = None` (main.py 451-452). -/
def initRunState : RunState := ⟨0, 0, none⟩

/-- `choose_movement_type` (main.py 348-376), driven by an oracle `r` for
`random.choice` (modelled as a uniformly drawn index into the
`enabled_types` list). -/
def choose_movement_type (use_linear use_bezier randomize : Bool)
    (s : RunState) (r : ℤ) : Except String MType :=
  let enabled_types : List MType :=
    (if use_linear then [MType.linear] else []) ++
    (if use_bezier then [MType.bezier] else [])
  match enabled_types with
  | [] => Except.error "At least one movement type must be enabled in config"
  | [t] => Except.ok t
  | ts =>
    if ¬randomize then
      Except.ok (if s.count MType.linear ≤ s.count MType.bezier
                 then MType.linear else MType.bezier)
    else
      Except.ok (ts.getD (r % (ts.length : ℤ)).toNat MType.linear)

/-- One iteration's counter update and overflow correction (main.py
477-497): given the `movement_type` returned by `choose_movement_type`,
returns the movement type actually executed together with the new run
state (counters and `last_movement_type`). -/
def updateMovement (use_linear use_bezier : Bool) (max_consecutive : ℕ)
    (movement_type : MType) (s : RunState) : MType × RunState :=
  let s1 :=
    if some movement_type = s.last_movement_type then
      s.setCount movement_type (s.count movement_type + 1)
    else
      (s.setCount movement_type 1).setCount movement_type.other 0
  let exec :=
    if s1.count movement_type > max_consecutive then
      let mt :=
        if movement_type = MType.linear ∧ use_bezier = true then MType.bezier
        else if movement_type = MType.bezier ∧ use_linear = true then MType.linear
        else movement_type
      (mt, (s1.setCount mt 1).setCount mt.other 0)
    else (movement_type, s1)
  (exec.1, { exec.2 with last_movement_type := some exec.1 })

/-- The scheduler's iterations, abstracted over the list of movement types
handed back by `choose_movement_type`: for each choice, the executed type
and the run state immediately after that iteration's counter update and
overflow correction. -/
def runTrace (use_linear use_bezier : Bool) (max_consecutive : ℕ)
    (s : RunState) : List MType → List (MType × RunState)
  | [] => []
  | c :: cs =>
    let step := updateMovement use_linear use_bezier max_consecutive c s
    step :: runTrace use_linear use_bezier max_consecutive step.2 cs

/-- The sequence of movement types actually executed along a run. -/
def executedTypes (use_linear use_bezier : Bool) (max_consecutive : ℕ)
    (s : RunState) (cs : List MType) : List MType :=
  (runTrace use_linear use_bezier max_consecutive s cs).map Prod.fst

/-! ## Process exit codes (main.py 431-432, 516-521) -/

/-- How the body of `main`'s `try:` block ends: a `KeyboardInterrupt`
(user-requested interrupt, possibly mid-step) or any other exception
(configuration, bounds or platform error). The loop itself is infinite, so
a run that ends ends in one of these two ways. -/
inductive LoopOutcome
  | interrupted
  | raised (msg : String)

/-- The process exit code of `main` (main.py 421-521): a failed
`check_dependencies` exits via `sys.exit(1)` (line 432); otherwise both
`except KeyboardInterrupt:` (line 516) and `except Exception as e:`
(line 519) print a message and fall off the end of `main`, so the process
exits 0. -/
def mainExitCode (deps_ok : Bool) (outcome : LoopOutcome) : ℕ :=
  if ¬deps_ok then 1
  else
    match outcome with
    | LoopOutcome.interrupted => 0
    | LoopOutcome.raised _ => 0

/-! ## Helper lemmas -/

/-- `int()` of an exact integer value is that integer. -/
theorem pyInt_intCast (n : ℤ) : pyInt (n : ℚ) = n := by
  simp [pyInt]

/-- `int()` of a rational in `[0, 1)` is `0`. -/
theorem pyInt_eq_zero_of_nonneg_of_lt_one (q : ℚ) (h0 : 0 ≤ q) (h1 : q < 1) :
    pyInt q = 0 := by
  have hden : (0 : ℚ) < (q.den : ℚ) := by exact_mod_cast q.pos
  have hq : (q.num : ℚ) / (q.den : ℚ) < 1 := by rw [Rat.num_div_den]; exact h1
  have hlt : (q.num : ℚ) < (q.den : ℚ) := (div_lt_one hden).mp hq
  exact Int.tdiv_eq_zero_of_lt (Rat.num_nonneg.mpr h0) (by exact_mod_cast hlt)

/-- `randint lo hi r` lies in the inclusive interval `[lo, hi]` whenever
`lo ≤ hi`, for every oracle value `r`. -/
theorem randint_mem (lo hi r : ℤ) (h : lo ≤ hi) :
    lo ≤ randint lo hi r ∧ randint lo hi r ≤ hi := by
  unfold randint
  have hne : hi - lo + 1 ≠ 0 := by omega
  have h1 := Int.emod_nonneg r hne
  have h2 := Int.emod_lt_of_pos r (show 0 < hi - lo + 1 by omega)
  omega

/-- A successful draw from `get_next_position` lies in the requested
rectangle (inclusive on all sides). -/
theorem get_next_position_mem (max_x max_y min_x min_y rx ry px py : ℤ)
    (h : get_next_position max_x max_y min_x min_y rx ry = Except.ok (px, py)) :
    min_x ≤ px ∧ px ≤ max_x ∧ min_y ≤ py ∧ py ≤ max_y := by
  unfold get_next_position at h
  split_ifs at h with h1 h2
  simp only [Except.ok.injEq, Prod.mk.injEq] at h
  obtain ⟨rfl, rfl⟩ := h
  have hx := randint_mem min_x max_x rx (by omega)
  have hy := randint_mem min_y max_y ry (by omega)
  exact ⟨hx.1, hx.2, hy.1, hy.2⟩

end MouseSim

namespace MouseSim

/-! ## C4: boundary calculator, positive cases -/

/-- C4: for every positive screen and margin tuple of arity 1, 2 or 4 whose
margins fit, `get_screen_bounds` with the safe zone enabled returns
`(left, top, width - right, height - bottom)` under the 1/2/4 arity
expansion, and with the safe zone disabled returns `(0, 0, width, height)`;
in particular margin `[50]` at 1920×1080 yields `(50, 50, 1870, 1030)` and
margin `[50, 100]` at 800×600 yields `(50, 100, 750, 500)`. -/
theorem get_screen_bounds_correct :
    (∀ (w h : ℤ) (margin : List ℤ),
      get_screen_bounds w h margin false = Except.ok (0, 0, w, h)) ∧
    (∀ (w h l t r b : ℤ) (margin : List ℤ),
      expandMargin margin = some (l, t, r, b) →
      l < w - r → t < h - b →
      get_screen_bounds w h margin true = Except.ok (l, t, w - r, h - b)) ∧
    get_screen_bounds 1920 1080 [50] true = Except.ok (50, 50, 1870, 1030) ∧
    get_screen_bounds 800 600 [50, 100] true = Except.ok (50, 100, 750, 500) := by
  refine ⟨fun w h margin => rfl, fun w h l t r b margin hm hx hy => ?_, rfl, rfl⟩
  match margin, hm with
  | [m], hm =>
    simp only [expandMargin, Option.some.injEq, Prod.mk.injEq] at hm
    obtain ⟨rfl, rfl, rfl, rfl⟩ := hm
    have hdef : get_screen_bounds w h [m] true = boundsFrom w h m m m m := rfl
    rw [hdef]
    simp only [boundsFrom]
    rw [if_neg (by omega)]
  | [mh, mv], hm =>
    simp only [expandMargin, Option.some.injEq, Prod.mk.injEq] at hm
    obtain ⟨rfl, rfl, rfl, rfl⟩ := hm
    have hdef : get_screen_bounds w h [mh, mv] true = boundsFrom w h mh mv mh mv := rfl
    rw [hdef]
    simp only [boundsFrom]
    rw [if_neg (by omega)]
  | [ml, mt, mr, mb], hm =>
    simp only [expandMargin, Option.some.injEq, Prod.mk.injEq] at hm
    obtain ⟨rfl, rfl, rfl, rfl⟩ := hm
    have hdef : get_screen_bounds w h [ml, mt, mr, mb] true =
        boundsFrom w h ml mt mr mb := rfl
    rw [hdef]
    simp only [boundsFrom]
    rw [if_neg (by omega)]

/-- Witness for C4: the general clauses applied at the round-trip scenario
inputs from the spec. -/
theorem get_screen_bounds_correct_witness :
    get_screen_bounds 1024 768 [10, 20, 30, 40] false = Except.ok (0, 0, 1024, 768) ∧
    get_screen_bounds 1024 768 [10, 20, 30, 40] true = Except.ok (10, 20, 994, 728) :=
  ⟨get_screen_bounds_correct.1 1024 768 [10, 20, 30, 40],
   get_screen_bounds_correct.2.1 1024 768 10 20 30 40 [10, 20, 30, 40] rfl
     (by decide) (by decide)⟩

/-! ## C5: boundary calculator, error cases -/

/-- C5: with the safe zone enabled, `get_screen_bounds` fails exactly when
the margin arity is not 1, 2 or 4, or the expanded margins do not fit on
the screen (`min_x ≥ max_x` or `min_y ≥ max_y`). -/
theorem get_screen_bounds_error_iff (w h : ℤ) (margin : List ℤ) :
    (∃ e, get_screen_bounds w h margin true = Except.error e) ↔
      ((margin.length ≠ 1 ∧ margin.length ≠ 2 ∧ margin.length ≠ 4) ∨
        marginTooLarge w h margin) := by
  match margin with
  | [] =>
    constructor
    · rintro ⟨e, he⟩
      exact Or.inl ⟨by simp, by simp, by simp⟩
    · intro _
      exact ⟨_, rfl⟩
  | [m] =>
    have hdef : get_screen_bounds w h [m] true = boundsFrom w h m m m m := rfl
    rw [hdef]
    simp only [boundsFrom]
    constructor
    · rintro ⟨e, he⟩
      split_ifs at he with hbad
      exact Or.inr ⟨m, m, m, m, rfl, by omega⟩
    · rintro (⟨h1, _, _⟩ | ⟨l, t, r, b, hm, hbad⟩)
      · simp at h1
      · simp only [expandMargin, Option.some.injEq, Prod.mk.injEq] at hm
        obtain ⟨rfl, rfl, rfl, rfl⟩ := hm
        rw [if_pos (by omega)]
        exact ⟨_, rfl⟩
  | [mh, mv] =>
    have hdef : get_screen_bounds w h [mh, mv] true = boundsFrom w h mh mv mh mv := rfl
    rw [hdef]
    simp only [boundsFrom]
    constructor
    · rintro ⟨e, he⟩
      split_ifs at he with hbad
      exact Or.inr ⟨mh, mv, mh, mv, rfl, by omega⟩
    · rintro (⟨_, h2, _⟩ | ⟨l, t, r, b, hm, hbad⟩)
      · simp at h2
      · simp only [expandMargin, Option.some.injEq, Prod.mk.injEq] at hm
        obtain ⟨rfl, rfl, rfl, rfl⟩ := hm
        rw [if_pos (by omega)]
        exact ⟨_, rfl⟩
  | [ma, mb2, mc] =>
    constructor
    · rintro ⟨e, he⟩
      exact Or.inl ⟨by simp, by simp, by simp⟩
    · intro _
      exact ⟨_, rfl⟩
  | [ml, mt, mr, mb] =>
    have hdef : get_screen_bounds w h [ml, mt, mr, mb] true =
        boundsFrom w h ml mt mr mb := rfl
    rw [hdef]
    simp only [boundsFrom]
    constructor
    · rintro ⟨e, he⟩
      split_ifs at he with hbad
      exact Or.inr ⟨ml, mt, mr, mb, rfl, by omega⟩
    · rintro (⟨_, _, h4⟩ | ⟨l, t, r, b, hm, hbad⟩)
      · simp at h4
      · simp only [expandMargin, Option.some.injEq, Prod.mk.injEq] at hm
        obtain ⟨rfl, rfl, rfl, rfl⟩ := hm
        rw [if_pos (by omega)]
        exact ⟨_, rfl⟩
  | a :: b :: c :: d :: e :: rest =>
    constructor
    · intro _
      refine Or.inl ⟨?_, ?_, ?_⟩ <;> simp
    · intro _
      exact ⟨_, rfl⟩

/-! ## C7: small-movement sampler postcondition -/

/-- Any point accepted by the rejection loop of
`get_small_movement_position` lies in the loop's window and at squared
distance at least `small_min²` from the current position. -/
theorem smallMoveLoop_spec (small_min min_x max_x min_y max_y cx cy : ℤ)
    (rng : ℕ → ℤ × ℤ) :
    ∀ (fuel k : ℕ) (px py : ℤ),
      smallMoveLoop small_min min_x max_x min_y max_y cx cy rng k fuel =
        Except.ok (some (px, py)) →
      min_x ≤ px ∧ px ≤ max_x ∧ min_y ≤ py ∧ py ≤ max_y ∧
        small_min ^ 2 ≤ (px - cx) ^ 2 + (py - cy) ^ 2 := by
  intro fuel
  induction fuel with
  | zero =>
    intro k px py h
    simp [smallMoveLoop] at h
  | succ fuel ih =>
    intro k px py h
    rw [smallMoveLoop] at h
    split at h
    · cases h
    · rename_i tx ty heq
      by_cases hd : small_min ^ 2 ≤ (tx - cx) ^ 2 + (ty - cy) ^ 2
      · rw [if_pos hd] at h
        simp only [Except.ok.injEq, Option.some.injEq, Prod.mk.injEq] at h
        obtain ⟨rfl, rfl⟩ := h
        have hmem := get_next_position_mem max_x max_y min_x min_y
          (rng k).1 (rng k).2 tx ty heq
        exact ⟨hmem.1, hmem.2.1, hmem.2.2.1, hmem.2.2.2, hd⟩
      · rw [if_neg hd] at h
        exact ih (k + 1) px py h

/-- C7: whenever `get_small_movement_position` returns a point, that point
lies within the square window of half-width `small_max` around the current
position clamped to `[0, screen_width] × [0, screen_height]`, its squared
Euclidean distance from the current position is at least `small_min²`
(`math.sqrt d ≥ m  ↔  d ≥ m²` for the non-negative configured minimum),
and is at most the squared window diagonal bound `2·small_max²` — for
current `(400, 300)`, minimum `50`, radius `200` on an 800×600 screen the
distance lies in `[50, √80000 ≈ 283]`. -/
theorem get_small_movement_position_spec (W H small_min small_max cx cy : ℤ)
    (rng : ℕ → ℤ × ℤ) (fuel : ℕ) (px py : ℤ)
    (hres : get_small_movement_position W H small_min small_max cx cy rng fuel =
      Except.ok (some (px, py)))
    (_hmin : 0 ≤ small_min) (_hmax : 0 ≤ small_max) :
    (max 0 (cx - small_max) ≤ px ∧ px ≤ min W (cx + small_max) ∧
     max 0 (cy - small_max) ≤ py ∧ py ≤ min H (cy + small_max)) ∧
    small_min ^ 2 ≤ (px - cx) ^ 2 + (py - cy) ^ 2 ∧
    (px - cx) ^ 2 + (py - cy) ^ 2 ≤ 2 * small_max ^ 2 := by
  obtain ⟨h1, h2, h3, h4, h5⟩ :=
    smallMoveLoop_spec small_min _ _ _ _ cx cy rng fuel 0 px py hres
  refine ⟨⟨h1, h2, h3, h4⟩, h5, ?_⟩
  have hx1 : cx - small_max ≤ px := le_trans (le_max_right 0 (cx - small_max)) h1
  have hx2 : px ≤ cx + small_max := le_trans h2 (min_le_right W (cx + small_max))
  have hy1 : cy - small_max ≤ py := le_trans (le_max_right 0 (cy - small_max)) h3
  have hy2 : py ≤ cy + small_max := le_trans h4 (min_le_right H (cy + small_max))
  have hxsq : (px - cx) ^ 2 ≤ small_max ^ 2 := sq_le_sq' (by omega) (by omega)
  have hysq : (py - cy) ^ 2 ≤ small_max ^ 2 := sq_le_sq' (by omega) (by omega)
  omega

/-- Witness for C7 at the spec's scenario: current `(400, 300)`, minimum
distance `50`, radius `200`, screen 800×600; the first draw already lands
at `(200, 100)`, which satisfies all the bounds. -/
theorem get_small_movement_position_spec_witness :
    (max 0 ((400 : ℤ) - 200) ≤ 200 ∧ (200 : ℤ) ≤ min 800 (400 + 200) ∧
     max 0 ((300 : ℤ) - 200) ≤ 100 ∧ (100 : ℤ) ≤ min 600 (300 + 200)) ∧
    (50 : ℤ) ^ 2 ≤ ((200 : ℤ) - 400) ^ 2 + ((100 : ℤ) - 300) ^ 2 ∧
    ((200 : ℤ) - 400) ^ 2 + ((100 : ℤ) - 300) ^ 2 ≤ 2 * 200 ^ 2 :=
  get_small_movement_position_spec 800 600 50 200 400 300 (fun _ => (0, 0)) 1
    200 100 rfl (by decide) (by decide)

/-! ## C10: small movements can escape the safe rectangle -/

/-- C10: with the safe zone enabled (screen 800×600, margin `[50]`, safe
rectangle `(50, 50, 750, 550)`), a cursor inside the margin band at
`(10, 10)` lets `get_small_movement_position` (with the default
`SMALL_MOVEMENT_RANGE = (50, 200)`) return `(0, 100)`: a target outside
the safe rectangle, because the small-movement window is clamped only to
the screen, never intersected with the safe rectangle. -/
theorem get_small_movement_position_escapes_safe_zone :
    get_screen_bounds 800 600 [50] true = Except.ok (50, 50, 750, 550) ∧
    get_small_movement_position 800 600 50 200 10 10 (fun _ => (0, 100)) 1 =
      Except.ok (some (0, 100)) ∧
    ¬((50 : ℤ) ≤ 0 ∧ (0 : ℤ) ≤ 750 ∧ (50 : ℤ) ≤ 100 ∧ (100 : ℤ) ≤ 550) :=
  ⟨rfl, rfl, by decide⟩

/-! ## C2: linear generator (binary64 arithmetic) -/

/-- `rhe` returns the integer within strict distance `1/2` of its input,
when one exists (ties never arise at such inputs). -/
theorem rhe_eq_of_abs_lt (s : ℚ) (m : ℤ) (h : |s - (m : ℚ)| < 1/2) : rhe s = m := by
  rw [abs_sub_lt_iff] at h
  obtain ⟨h1, h2⟩ := h
  unfold rhe
  by_cases hsm : (m : ℚ) ≤ s
  · have hfl : ⌊s⌋ = m := by
      rw [Int.floor_eq_iff]
      exact ⟨hsm, by linarith⟩
    rw [hfl, if_pos (by linarith)]
  · push_neg at hsm
    have hfl : ⌊s⌋ = m - 1 := by
      rw [Int.floor_eq_iff]
      push_cast
      constructor <;> linarith
    rw [hfl, if_neg (by push_cast; linarith), if_pos (by push_cast; linarith)]
    omega

/-- Binary64 rounding of zero. -/
theorem fl_zero : fl 0 = 0 := by simp [fl]

/-- On positive inputs `fl` is the scaled significand rounding. -/
theorem fl_of_pos (q : ℚ) (hq : 0 < q) : fl q = flPos q := by
  rw [fl, if_neg (not_lt.mpr hq.le), if_neg hq.ne']

/-- Binary64 rounding is symmetric about zero. -/
theorem fl_neg_eq (q : ℚ) : fl (-q) = -fl q := by
  rcases lt_trichotomy q 0 with h | rfl | h
  · simp only [fl]
    rw [if_neg (not_lt.mpr (neg_pos.mpr h).le), if_neg (neg_pos.mpr h).ne',
      if_pos h, neg_neg]
  · simp [fl]
  · simp only [fl]
    rw [if_pos (neg_lt_zero.mpr h), if_neg (not_lt.mpr h.le), if_neg h.ne', neg_neg]

/-- Characterization of `flPos` by a bracketing exponent and a significand
within strict distance `1/2`. -/
theorem flPos_eq (q : ℚ) (e m : ℤ) (hq1 : (2:ℚ) ^ e ≤ q)
    (hq2 : q < (2:ℚ) ^ (e + 1))
    (hm : |q * (2:ℚ) ^ (52 - e) - (m : ℚ)| < 1/2) :
    flPos q = (m : ℚ) * (2:ℚ) ^ (e - 52) := by
  have hq0 : (0:ℚ) < q := lt_of_lt_of_le (zpow_pos (by norm_num) e) hq1
  have hlog : Int.log 2 q = e := by
    have hup : Int.log 2 q < e + 1 := by
      refine (Int.lt_zpow_iff_log_lt (by norm_num) hq0).mp ?_
      exact_mod_cast hq2
    have hlo : e ≤ Int.log 2 q := by
      refine (Int.zpow_le_iff_le_log (by norm_num) hq0).mp ?_
      exact_mod_cast hq1
    omega
  unfold flPos
  rw [hlog, rhe_eq_of_abs_lt _ m hm]

/-- `fl` is exact on grid values `m · 2^k` with `0 < m < 2^53`: every such
value is a binary64 float. -/
theorem fl_grid_pos (m k : ℤ) (h1 : 0 < m) (h2 : m < 2 ^ 53) :
    fl ((m : ℚ) * (2:ℚ) ^ k) = (m : ℚ) * (2:ℚ) ^ k := by
  have hm0 : (0:ℚ) < (m:ℚ) := by exact_mod_cast h1
  have h2pos : (0:ℚ) < (2:ℚ) ^ k := zpow_pos (by norm_num) k
  have hq0 : (0:ℚ) < (m:ℚ) * (2:ℚ) ^ k := mul_pos hm0 h2pos
  set a := Int.log 2 (m:ℚ) with ha
  have hbr1 : (2:ℚ) ^ a ≤ (m:ℚ) := by
    exact_mod_cast Int.zpow_log_le_self (b := 2) (by norm_num) hm0
  have hbr2 : (m:ℚ) < (2:ℚ) ^ (a + 1) := by
    exact_mod_cast Int.lt_zpow_succ_log_self (b := 2) (by norm_num) (m:ℚ)
  have ha0 : 0 ≤ a := by
    rw [ha]
    refine (Int.zpow_le_iff_le_log (by norm_num) hm0).mp ?_
    have h1' : (1:ℤ) ≤ m := h1
    have : ((2:ℕ):ℚ) ^ (0:ℤ) = 1 := by norm_num
    rw [this]
    exact_mod_cast h1'
  have ha53 : a < 53 := by
    rw [ha]
    refine (Int.lt_zpow_iff_log_lt (by norm_num) hm0).mp ?_
    have : ((2:ℕ):ℚ) ^ (53:ℤ) = ((2 ^ 53 : ℤ) : ℚ) := by norm_num
    rw [this]
    exact_mod_cast h2
  have hbnat : ((52 - a).toNat : ℤ) = 52 - a := Int.toNat_of_nonneg (by omega)
  have hMcast : ((m * 2 ^ (52 - a).toNat : ℤ) : ℚ) = (m:ℚ) * (2:ℚ) ^ ((52 - a) : ℤ) := by
    push_cast
    rw [← zpow_natCast (2:ℚ) (52 - a).toNat, hbnat]
  have hA : (2:ℚ) ^ (a + k) ≤ (m:ℚ) * (2:ℚ) ^ k := by
    rw [zpow_add₀ (by norm_num : (2:ℚ) ≠ 0)]
    exact mul_le_mul_of_nonneg_right hbr1 h2pos.le
  have hB : (m:ℚ) * (2:ℚ) ^ k < (2:ℚ) ^ (a + k + 1) := by
    rw [show a + k + 1 = (a + 1) + k by ring, zpow_add₀ (by norm_num : (2:ℚ) ≠ 0)]
    exact mul_lt_mul_of_pos_right hbr2 h2pos
  have hC : |(m:ℚ) * (2:ℚ) ^ k * (2:ℚ) ^ (52 - (a + k)) -
      ((m * 2 ^ (52 - a).toNat : ℤ) : ℚ)| < 1/2 := by
    have hEq : (m:ℚ) * (2:ℚ) ^ k * (2:ℚ) ^ (52 - (a + k)) =
        ((m * 2 ^ (52 - a).toNat : ℤ) : ℚ) := by
      rw [hMcast, mul_assoc, ← zpow_add₀ (by norm_num : (2:ℚ) ≠ 0),
        show k + (52 - (a + k)) = 52 - a by ring]
    rw [hEq, sub_self, abs_zero]
    norm_num
  rw [fl_of_pos _ hq0, flPos_eq ((m:ℚ) * (2:ℚ) ^ k) (a + k)
    (m * 2 ^ (52 - a).toNat) hA hB hC, hMcast, mul_assoc,
    ← zpow_add₀ (by norm_num : (2:ℚ) ≠ 0),
    show (52 - a) + (a + k - 52) = k by ring]

/-- `fl` is exact on grid values of either sign. -/
theorem fl_grid (m k : ℤ) (h1 : m ≠ 0) (h2 : m.natAbs < 2 ^ 53) :
    fl ((m : ℚ) * (2:ℚ) ^ k) = (m : ℚ) * (2:ℚ) ^ k := by
  rcases h1.lt_or_lt with hneg | hpos
  · have hg := fl_grid_pos (-m) k (by omega) (by omega)
    have hrw : (m : ℚ) * (2:ℚ) ^ k = -(((-m : ℤ) : ℚ) * (2:ℚ) ^ k) := by
      push_cast
      ring
    rw [hrw, fl_neg_eq, hg]
  · exact fl_grid_pos m k hpos (by omega)

/-- `fl` is exact on integers below `2^53` in magnitude. -/
theorem fl_intCast (n : ℤ) (h : n.natAbs < 2 ^ 53) : fl (n : ℚ) = (n : ℚ) := by
  rcases eq_or_ne n 0 with rfl | hn
  · simpa using fl_zero
  · simpa using fl_grid n 0 hn h

/-- `int()` of the exact zero. -/
theorem pyInt_zero : pyInt 0 = 0 := by
  simpa using pyInt_intCast 0

/-- The binary64 rounding of `1/49`: the scaled significand `2^58/49`
has remainder `23/49 < 1/2`, so the quotient rounds down. -/
theorem fl_one_div_49 : fl (1/49 : ℚ) = 5882252574524729 / 2 ^ 58 := by
  have h := flPos_eq (1/49 : ℚ) (-6) 5882252574524729 (by norm_num) (by norm_num)
    (by rw [abs_sub_lt_iff]; constructor <;> norm_num)
  rw [fl_of_pos _ (by norm_num), h]
  norm_num

/-- The rounded increment times `49`: `(2^58-23)·2^-58 = 1 - 23·2^-58`
rounds (scaled remainder `9/32 < 1/2`) to `1 - 2^-53`, Python's
`0.9999999999999999`. -/
theorem fl_inc_mul_49 :
    fl ((5882252574524729 / 2 ^ 58 : ℚ) * 49) = (2 ^ 53 - 1) / 2 ^ 53 := by
  have h := flPos_eq ((5882252574524729 / 2 ^ 58 : ℚ) * 49) (-1) (2 ^ 53 - 1)
    (by norm_num) (by norm_num) (by rw [abs_sub_lt_iff]; constructor <;> norm_num)
  rw [fl_of_pos _ (by norm_num), h]
  norm_num

/-- Element `k` of the jitter-free linear trajectory, in source (binary64)
form. -/
theorem linear_mouse_move_getElem (sx sy tx ty : ℤ) (interval : ℚ) (N : ℕ)
    (jI : ℤ) (jit : ℕ → ℤ × ℤ) (k : ℕ) (hk : k < N) :
    (linear_mouse_move sx sy tx ty interval N false jI jit)[k]? =
      some ((pyInt (fl ((sx : ℚ) + fl (fl (((tx : ℚ) - (sx : ℚ)) / (N : ℚ)) * ((k : ℚ) + 1)))),
             pyInt (fl ((sy : ℚ) + fl (fl (((ty : ℚ) - (sy : ℚ)) / (N : ℚ)) * ((k : ℚ) + 1))))),
            interval) := by
  simp only [linear_mouse_move, List.getElem?_map, List.getElem?_range hk,
    Option.map_some', Bool.false_eq_true, if_false]
  push_cast
  ring_nf

/-- C2 counterexample: in the source's binary64 arithmetic, with start
`(0, 0)`, target `(1, 0)` and drawn step count `49` (drawable from
`LINEAR_STEPS_RANGE = (30, 80)`), `x_increment = fl(1/49)` rounds down and
`fl(fl(1/49) · 49) = 1 - 2^-53`, so the final emitted point is
`(int(0.9999999999999999), 0) = (0, 0) ≠ (1, 0)`: the claim's
final-point-equals-target conjunct (and its per-step exact-position
formula) is false of the program. -/
theorem linear_mouse_move_misses_target :
    (linear_mouse_move 0 0 1 0 (1/100) 49 false 1 (fun _ => (0, 0))).getLast? =
      some ((0, 0), 1/100) ∧ ((0 : ℤ), (0 : ℤ)) ≠ ((1 : ℤ), (0 : ℤ)) := by
  refine ⟨?_, by decide⟩
  have hlen :
      (linear_mouse_move 0 0 1 0 (1/100) 49 false 1 (fun _ => (0, 0))).length = 49 := by
    simp [linear_mouse_move]
  rw [List.getLast?_eq_getElem?, hlen,
    linear_mouse_move_getElem 0 0 1 0 (1/100) 49 1 (fun _ => (0, 0)) 48 (by norm_num)]
  have e1 : (((1:ℤ):ℚ) - ((0:ℤ):ℚ)) / ((49:ℕ):ℚ) = (1/49 : ℚ) := by norm_num
  have e2 : (((48:ℕ)):ℚ) + 1 = (49:ℚ) := by norm_num
  rw [e1, fl_one_div_49, e2, fl_inc_mul_49]
  have e3 : ((0:ℤ):ℚ) + ((2 ^ 53 - 1 : ℚ) / 2 ^ 53) =
      ((2 ^ 53 - 1 : ℤ) : ℚ) * (2:ℚ) ^ (-53 : ℤ) := by
    push_cast
    rw [zpow_neg]
    norm_num
  rw [e3, fl_grid (2 ^ 53 - 1) (-53) (by norm_num) (by norm_num)]
  have e4 : pyInt (((2 ^ 53 - 1 : ℤ) : ℚ) * (2:ℚ) ^ (-53 : ℤ)) = 0 := by
    apply pyInt_eq_zero_of_nonneg_of_lt_one
    · rw [zpow_neg]
      positivity
    · rw [zpow_neg]
      norm_num
  rw [e4]
  have ey1 : (((0:ℤ):ℚ) - ((0:ℤ):ℚ)) / ((49:ℕ):ℚ) = (0 : ℚ) := by norm_num
  rw [ey1, fl_zero, zero_mul, fl_zero]
  have ey2 : ((0:ℤ):ℚ) + (0:ℚ) = 0 := by norm_num
  rw [ey2, fl_zero, pyInt_zero]

/-- C2 (amended): with jitter disabled `linear_mouse_move` emits exactly
`N` cursor writes for the drawn step count `N ≥ 1`, the `i`-th at the
binary64 value `int(fl(start + fl(fl((target-start)/N) · i)))` per axis
(the claim's formula evaluated in float arithmetic, not exactly), each
followed by the same fixed `step_interval`; the final point equals the
target whenever the per-axis increments `(target-start)/N` are exactly
representable in binary64 and the coordinates are below `2^53` (true of
any real screen) — but not in general, by the counterexample. -/
theorem linear_mouse_move_spec_amended (sx sy tx ty : ℤ) (interval : ℚ) (N : ℕ)
    (jI : ℤ) (jit : ℕ → ℤ × ℤ) (hN : 1 ≤ N) :
    (linear_mouse_move sx sy tx ty interval N false jI jit).length = N ∧
    (∀ i : ℕ, 1 ≤ i → i ≤ N →
      (linear_mouse_move sx sy tx ty interval N false jI jit)[i - 1]? =
        some ((pyInt (fl ((sx : ℚ) + fl (fl (((tx : ℚ) - (sx : ℚ)) / (N : ℚ)) * (i : ℚ)))),
               pyInt (fl ((sy : ℚ) + fl (fl (((ty : ℚ) - (sy : ℚ)) / (N : ℚ)) * (i : ℚ))))),
              interval)) ∧
    (∀ p ∈ linear_mouse_move sx sy tx ty interval N false jI jit, p.2 = interval) ∧
    (fl (((tx : ℚ) - (sx : ℚ)) / (N : ℚ)) = ((tx : ℚ) - (sx : ℚ)) / (N : ℚ) →
     fl (((ty : ℚ) - (sy : ℚ)) / (N : ℚ)) = ((ty : ℚ) - (sy : ℚ)) / (N : ℚ) →
     (tx - sx).natAbs < 2 ^ 53 → (ty - sy).natAbs < 2 ^ 53 →
     tx.natAbs < 2 ^ 53 → ty.natAbs < 2 ^ 53 →
     (linear_mouse_move sx sy tx ty interval N false jI jit).getLast? =
       some ((tx, ty), interval)) := by
  have hlen : (linear_mouse_move sx sy tx ty interval N false jI jit).length = N := by
    simp [linear_mouse_move]
  have hNQ : (N : ℚ) ≠ 0 := Nat.cast_ne_zero.mpr (by omega)
  refine ⟨hlen, ?_, ?_, ?_⟩
  · intro i h1 hi
    rw [linear_mouse_move_getElem sx sy tx ty interval N jI jit (i - 1) (by omega)]
    have hcast : ((i - 1 : ℕ) : ℚ) + 1 = (i : ℚ) := by
      have : ((i - 1 : ℕ) : ℚ) = (i : ℚ) - 1 := by
        push_cast [Nat.cast_sub h1]
        ring
      rw [this]; ring
    rw [hcast]
  · intro p hp
    simp only [linear_mouse_move, List.mem_map, List.mem_range] at hp
    obtain ⟨k, _, rfl⟩ := hp
    simp
  · intro hx hy hdx hdy htx hty
    rw [List.getLast?_eq_getElem?, hlen,
      linear_mouse_move_getElem sx sy tx ty interval N jI jit (N - 1) (by omega)]
    have hcast : ((N - 1 : ℕ) : ℚ) + 1 = (N : ℚ) := by
      have : ((N - 1 : ℕ) : ℚ) = (N : ℚ) - 1 := by
        push_cast [Nat.cast_sub hN]
        ring
      rw [this]; ring
    rw [hcast, hx, hy,
      div_mul_cancel₀ ((tx : ℚ) - (sx : ℚ)) hNQ,
      div_mul_cancel₀ ((ty : ℚ) - (sy : ℚ)) hNQ]
    have hdx' : (tx : ℚ) - (sx : ℚ) = ((tx - sx : ℤ) : ℚ) := by push_cast; ring
    have hdy' : (ty : ℚ) - (sy : ℚ) = ((ty - sy : ℤ) : ℚ) := by push_cast; ring
    rw [hdx', hdy', fl_intCast _ hdx, fl_intCast _ hdy]
    have hsx : (sx : ℚ) + ((tx - sx : ℤ) : ℚ) = ((tx : ℤ) : ℚ) := by push_cast; ring
    have hsy : (sy : ℚ) + ((ty - sy : ℤ) : ℚ) = ((ty : ℤ) : ℚ) := by push_cast; ring
    rw [hsx, hsy, fl_intCast _ htx, fl_intCast _ hty, pyInt_intCast, pyInt_intCast]

/-- Witness for the amended C2 at `start = (0, 0)`, `target = (10, 7)`,
`N = 4`: the increments `10/4 = 5·2^-1` and `7/4 = 7·2^-2` are exactly
representable, so the final point equals the target. -/
theorem linear_mouse_move_spec_amended_witness :
    (linear_mouse_move 0 0 10 7 (1/100) 4 false 1 (fun _ => (0, 0))).getLast? =
      some ((10, 7), 1/100) :=
  (linear_mouse_move_spec_amended 0 0 10 7 (1/100) 4 1 (fun _ => (0, 0))
    (by decide)).2.2.2
    (by
      rw [show (((10:ℤ):ℚ) - ((0:ℤ):ℚ)) / ((4:ℕ):ℚ) = ((5:ℤ):ℚ) * (2:ℚ) ^ (-1 : ℤ) by
        push_cast
        rw [zpow_neg]
        norm_num]
      exact fl_grid 5 (-1) (by norm_num) (by norm_num))
    (by
      rw [show (((7:ℤ):ℚ) - ((0:ℤ):ℚ)) / ((4:ℕ):ℚ) = ((7:ℤ):ℚ) * (2:ℚ) ^ (-2 : ℤ) by
        push_cast
        rw [zpow_neg]
        norm_num]
      exact fl_grid 7 (-2) (by norm_num) (by norm_num))
    (by decide) (by decide) (by decide) (by decide)

/-! ## C3, C6: curved generator -/

/-- The cubic-Bezier blend at `t = 0` is the start point. -/
theorem bezierBlend_zero (p0 c1 c2 p3 : ℚ) : bezierBlend p0 c1 c2 p3 0 = p0 := by
  unfold bezierBlend; ring

/-- The cubic-Bezier blend at `t = 1` is the end point, whatever the
control points are. -/
theorem bezierBlend_one (p0 c1 c2 p3 : ℚ) : bezierBlend p0 c1 c2 p3 1 = p3 := by
  unfold bezierBlend; ring

/-- C3: with jitter disabled and curvature factor `0`, whenever the derived
step count `steps = int(duration / interval)` is at least 1,
`human_like_mouse_move` emits exactly `steps + 1` points, the first
(`t = 0`) equal to the start read at plan time and the last (`t = 1`)
equal to the target, exactly. -/
theorem human_like_mouse_move_endpoints (sx sy tx ty : ℤ)
    (distq dur interval curv u1x u1y u2x u2y : ℚ) (jI : ℤ)
    (jit : ℕ → ℤ × ℤ) (du : ℕ → ℚ)
    (_hcurv : curv = 0) (hsteps : 1 ≤ pyInt (dur / interval)) :
    ∃ pts, human_like_mouse_move sx sy tx ty distq dur interval curv
        u1x u1y u2x u2y false jI jit du = Except.ok pts ∧
      pts.length = (pyInt (dur / interval)).toNat + 1 ∧
      (pts.map Prod.fst).head? = some (sx, sy) ∧
      (pts.map Prod.fst).getLast? = some (tx, ty) := by
  have hS0 : pyInt (dur / interval) ≠ 0 := by omega
  have hSQ : ((pyInt (dur / interval) : ℤ) : ℚ) ≠ 0 := Int.cast_ne_zero.mpr hS0
  simp only [human_like_mouse_move]
  rw [if_neg hS0]
  refine ⟨_, rfl, ?_, ?_, ?_⟩
  · simp only [List.length_map, List.length_range]
    omega
  · have h0 : 0 < (pyInt (dur / interval) + 1).toNat := by omega
    rw [List.map_map, List.head?_eq_getElem?, List.getElem?_map,
      List.getElem?_range h0, Option.map_some']
    simp [bezierBlend_zero, pyInt_intCast]
  · have hlt : (pyInt (dur / interval)).toNat < (pyInt (dur / interval) + 1).toNat := by
      omega
    have hcast : (((pyInt (dur / interval)).toNat : ℕ) : ℚ) =
        ((pyInt (dur / interval) : ℤ) : ℚ) := by
      exact_mod_cast Int.toNat_of_nonneg (show (0 : ℤ) ≤ pyInt (dur / interval) by omega)
    rw [List.map_map, List.getLast?_eq_getElem?, List.length_map,
      List.length_range]
    have hidx : (pyInt (dur / interval) + 1).toNat - 1 = (pyInt (dur / interval)).toNat := by
      omega
    rw [hidx, List.getElem?_map, List.getElem?_range hlt, Option.map_some']
    simp only [Function.comp_apply, hcast, div_self hSQ, bezierBlend_one,
      Bool.false_eq_true, if_false, Int.cast_zero, add_zero, pyInt_intCast]

/-- Witness for C3 at start `(0, 0)`, target `(5, 5)`, duration `1`,
interval `1/2` (so `steps = 2`), curvature `0`. -/
theorem human_like_mouse_move_endpoints_witness :
    ∃ pts, human_like_mouse_move 0 0 5 5 10 1 (1/2) 0
        0 0 0 0 false 1 (fun _ => (0, 0)) (fun _ => 0) = Except.ok pts ∧
      pts.length = (pyInt ((1 : ℚ) / (1/2))).toNat + 1 ∧
      (pts.map Prod.fst).head? = some (0, 0) ∧
      (pts.map Prod.fst).getLast? = some (5, 5) :=
  human_like_mouse_move_endpoints 0 0 5 5 10 1 (1/2) 0 0 0 0 0 1
    (fun _ => (0, 0)) (fun _ => 0) rfl
    (by rw [show (1 : ℚ) / (1/2) = ((2 : ℤ) : ℚ) by norm_num, pyInt_intCast]; decide)

/-- C6: the source has no configuration validation at all — a duration and
step-interval whose ratio truncates to `0` (e.g. duration `0.01`, interval
`0.03`) is not rejected before the generator runs; instead the generator
itself raises `ZeroDivisionError` at `t = i / steps` (main.py 317) on its
first iteration.  Under the precondition `steps ≥ 1` (second conjunct,
with arbitrary parameters), the generator always succeeds: the
division-by-zero branch is unreachable. -/
theorem human_like_mouse_move_zero_steps :
    human_like_mouse_move 0 0 100 100 150 (1/100) (3/100) (3/10)
        0 0 0 0 false 1 (fun _ => (0, 0)) (fun _ => 0) =
      Except.error "ZeroDivisionError: division by zero" ∧
    (∀ (sx sy tx ty : ℤ) (distq dur interval curv u1x u1y u2x u2y : ℚ)
        (ej : Bool) (jI : ℤ) (jit : ℕ → ℤ × ℤ) (du : ℕ → ℚ),
      1 ≤ pyInt (dur / interval) →
      ∃ pts, human_like_mouse_move sx sy tx ty distq dur interval curv
          u1x u1y u2x u2y ej jI jit du = Except.ok pts) := by
  constructor
  · have hz : pyInt ((1/100 : ℚ) / (3/100)) = 0 := by
      rw [show (1/100 : ℚ) / (3/100) = 1/3 by norm_num]
      exact pyInt_eq_zero_of_nonneg_of_lt_one (1/3) (by norm_num) (by norm_num)
    simp only [human_like_mouse_move]
    rw [if_pos hz]
  · intro sx sy tx ty distq dur interval curv u1x u1y u2x u2y ej jI jit du hsteps
    simp only [human_like_mouse_move]
    rw [if_neg (by omega)]
    exact ⟨_, rfl⟩

/-- Witness for C6's second conjunct: duration `1`, interval `1/100`
(`steps = 100 ≥ 1`) gives a successful trajectory. -/
theorem human_like_mouse_move_zero_steps_witness :
    ∃ pts, human_like_mouse_move 0 0 100 100 150 1 (1/100) (3/10)
        0 0 0 0 true 1 (fun _ => (0, 0)) (fun _ => 0) = Except.ok pts :=
  human_like_mouse_move_zero_steps.2 0 0 100 100 150 1 (1/100) (3/10)
    0 0 0 0 true 1 (fun _ => (0, 0)) (fun _ => 0)
    (by rw [show (1 : ℚ) / (1/100) = ((100 : ℤ) : ℚ) by norm_num, pyInt_intCast]; decide)

/-! ## C1, C9: consecutive-count invariants of the scheduler -/

/-- The other style differs from the style itself. -/
theorem MType.other_ne (t : MType) : t.other ≠ t := by
  cases t <;> simp [MType.other]

/-- Reading the counter just written. -/
theorem count_setCount_self (s : RunState) (t : MType) (n : ℕ) :
    (s.setCount t n).count t = n := by
  cases t <;> rfl

/-- Writing a counter leaves the other style's counter unchanged. -/
theorem count_setCount_other (s : RunState) (t : MType) (n : ℕ) :
    (s.setCount t n).count t.other = s.count t.other := by
  cases t <;> rfl

/-- Writing the other style's counter leaves this style's counter
unchanged. -/
theorem count_setCount_other' (s : RunState) (t : MType) (n : ℕ) :
    (s.setCount t.other n).count t = s.count t := by
  cases t <;> rfl

/-- Counters survive replacing `last_movement_type`. -/
theorem count_mk_projs (x : RunState) (o : Option MType) (t : MType) :
    (RunState.mk x.linear_count x.bezier_count o).count t = x.count t := by
  cases t <;> rfl

/-- With both styles enabled the overflow correction switches to the other
style. -/
theorem switch_both (c : MType) :
    (if c = MType.linear ∧ (true : Bool) = true then MType.bezier
     else if c = MType.bezier ∧ (true : Bool) = true then MType.linear
     else c) = c.other := by
  cases c <;> simp [MType.other]

/-- `runTrace` on a cons, unfolded. -/
theorem runTrace_cons (ul ub : Bool) (mx : ℕ) (s : RunState) (c : MType)
    (cs : List MType) :
    runTrace ul ub mx s (c :: cs) =
      updateMovement ul ub mx c s ::
        runTrace ul ub mx (updateMovement ul ub mx c s).2 cs := rfl

/-- `executedTypes` on a cons, unfolded. -/
theorem executedTypes_cons (ul ub : Bool) (mx : ℕ) (s : RunState) (c : MType)
    (cs : List MType) :
    executedTypes ul ub mx s (c :: cs) =
      (updateMovement ul ub mx c s).1 ::
        executedTypes ul ub mx (updateMovement ul ub mx c s).2 cs := rfl

/-- The state invariant maintained by the scheduler loop: once some
movement has executed, its counter is positive and the other style's
counter is zero. -/
def stateInv (s : RunState) : Prop :=
  ∀ t, s.last_movement_type = some t → 1 ≤ s.count t ∧ s.count t.other = 0

/-- The loop-entry state satisfies the invariant (vacuously). -/
theorem stateInv_init : stateInv initRunState := by
  intro t ht
  simp [initRunState] at ht

/-- After one counter update, `last_movement_type` records the executed
style and the executed style's counter is at least 1 — for every flag
combination. -/
theorem updateMovement_exec (ul ub : Bool) (mx : ℕ) (c : MType) (s : RunState) :
    (updateMovement ul ub mx c s).2.last_movement_type =
      some (updateMovement ul ub mx c s).1 ∧
    1 ≤ (updateMovement ul ub mx c s).2.count (updateMovement ul ub mx c s).1 := by
  refine ⟨rfl, ?_⟩
  simp only [updateMovement]
  rw [count_mk_projs]
  by_cases hov :
      mx < (if some c = s.last_movement_type then s.setCount c (s.count c + 1)
            else (s.setCount c 1).setCount c.other 0).count c
  · rw [if_pos hov]
    dsimp only
    rw [count_setCount_other', count_setCount_self]
  · rw [if_neg hov]
    dsimp only
    by_cases hlast : some c = s.last_movement_type
    · rw [if_pos hlast, count_setCount_self]
      omega
    · rw [if_neg hlast, count_setCount_other', count_setCount_self]

/-- One counter update preserves the state invariant — for every flag
combination, whatever style the selector handed over. -/
theorem updateMovement_stateInv (ul ub : Bool) (mx : ℕ) (c : MType) (s : RunState)
    (hs : stateInv s) :
    stateInv (updateMovement ul ub mx c s).2 := by
  intro u hu
  rw [(updateMovement_exec ul ub mx c s).1, Option.some.injEq] at hu
  subst hu
  refine ⟨(updateMovement_exec ul ub mx c s).2, ?_⟩
  simp only [updateMovement]
  rw [count_mk_projs]
  by_cases hov :
      mx < (if some c = s.last_movement_type then s.setCount c (s.count c + 1)
            else (s.setCount c 1).setCount c.other 0).count c
  · rw [if_pos hov]
    dsimp only
    rw [count_setCount_self]
  · rw [if_neg hov]
    dsimp only
    by_cases hlast : some c = s.last_movement_type
    · rw [if_pos hlast, count_setCount_other]
      exact (hs c hlast.symm).2
    · rw [if_neg hlast, count_setCount_self]

/-- The counter of the executed style never exceeds the maximum right
after the update (the overflow branch resets it to 1 even when it cannot
switch styles), provided `1 ≤ max_consecutive`. -/
theorem updateMovement_count_le (ul ub : Bool) (mx : ℕ) (hmx : 1 ≤ mx) (c : MType)
    (s : RunState) :
    (updateMovement ul ub mx c s).2.count (updateMovement ul ub mx c s).1 ≤ mx := by
  simp only [updateMovement]
  rw [count_mk_projs]
  by_cases hov :
      mx < (if some c = s.last_movement_type then s.setCount c (s.count c + 1)
            else (s.setCount c 1).setCount c.other 0).count c
  · rw [if_pos hov]
    dsimp only
    rw [count_setCount_other', count_setCount_self]
    exact hmx
  · rw [if_neg hov]
    dsimp only
    omega

/-- With both styles enabled and `1 ≤ max_consecutive`, if the executed
style equals the previous one, its counter was incremented by exactly one
and stayed within the maximum. -/
theorem updateMovement_incr (mx : ℕ) (hmx : 1 ≤ mx) (c : MType) (s : RunState)
    (t : MType) (hlast : s.last_movement_type = some t)
    (hexec : (updateMovement true true mx c s).1 = t) :
    (updateMovement true true mx c s).2.count t = s.count t + 1 ∧
      s.count t + 1 ≤ mx := by
  by_cases hct : c = t
  · subst hct
    have hlast' : some c = s.last_movement_type := hlast.symm
    by_cases hov :
        mx < (if some c = s.last_movement_type then s.setCount c (s.count c + 1)
              else (s.setCount c 1).setCount c.other 0).count c
    · exfalso
      apply MType.other_ne c
      calc c.other
          = (updateMovement true true mx c s).1 := by
            simp only [updateMovement]
            rw [if_pos hov]
            dsimp only
            cases c <;> simp [MType.other]
        _ = c := hexec
    · constructor
      · simp only [updateMovement]
        rw [count_mk_projs, if_neg hov]
        dsimp only
        rw [if_pos hlast', count_setCount_self]
      · rw [if_pos hlast', count_setCount_self] at hov
        omega
  · exfalso
    have hlast' : ¬(some c = s.last_movement_type) := by
      rw [hlast]
      simp [hct]
    have hov :
        ¬(mx < (if some c = s.last_movement_type then s.setCount c (s.count c + 1)
                else (s.setCount c 1).setCount c.other 0).count c) := by
      rw [if_neg hlast', count_setCount_other', count_setCount_self]
      omega
    apply hct
    calc c = (updateMovement true true mx c s).1 := by
          simp only [updateMovement]
          rw [if_neg hov]
      _ = t := hexec

/-- Along any run with both styles enabled, every post-update state has the
executed style's counter within the maximum. -/
theorem runTrace_count_le (mx : ℕ) (hmx : 1 ≤ mx) :
    ∀ (cs : List MType) (s : RunState) (p : MType × RunState),
      p ∈ runTrace true true mx s cs → p.2.count p.1 ≤ mx := by
  intro cs
  induction cs with
  | nil =>
    intro s p hp
    simp [runTrace] at hp
  | cons c cs' ih =>
    intro s p hp
    rw [runTrace_cons] at hp
    rcases List.mem_cons.mp hp with rfl | hp'
    · exact updateMovement_count_le true true mx hmx c s
    · exact ih _ p hp'

/-- If the executed sequence of a run opens with `n` copies of `t` and the
incoming state already recorded `t` as last style, the incoming counter
plus `n` is still within the maximum (or `n = 0`). -/
theorem runTrace_run_prefix (mx : ℕ) (hmx : 1 ≤ mx) :
    ∀ (n : ℕ) (cs : List MType) (s : RunState) (t : MType) (l₂ : List MType),
      s.last_movement_type = some t →
      executedTypes true true mx s cs = List.replicate n t ++ l₂ →
      n = 0 ∨ s.count t + n ≤ mx := by
  intro n
  induction n with
  | zero =>
    intro _ _ _ _ _ _
    exact Or.inl rfl
  | succ n ih =>
    intro cs s t l₂ hlast hexec
    match cs with
    | [] =>
      rw [List.replicate_succ] at hexec
      simp [executedTypes, runTrace] at hexec
    | c :: cs' =>
      rw [executedTypes_cons, List.replicate_succ, List.cons_append,
        List.cons.injEq] at hexec
      obtain ⟨he, hrest⟩ := hexec
      obtain ⟨hinc, hle⟩ := updateMovement_incr mx hmx c s t hlast he
      have hlast' : (updateMovement true true mx c s).2.last_movement_type = some t := by
        rw [(updateMovement_exec true true mx c s).1, he]
      rcases ih cs' _ t l₂ hlast' hrest with h0 | hsum
      · subst h0
        exact Or.inr (by omega)
      · rw [hinc] at hsum
        exact Or.inr (by omega)

/-- With both styles enabled and `1 ≤ max_consecutive`, no executed
sequence contains `max_consecutive + 1` consecutive movements of the same
style. -/
theorem runTrace_no_long_run (mx : ℕ) (hmx : 1 ≤ mx) :
    ∀ (cs : List MType) (s : RunState) (t : MType) (l₁ l₂ : List MType),
      executedTypes true true mx s cs ≠ l₁ ++ (List.replicate (mx + 1) t ++ l₂) := by
  intro cs
  induction cs with
  | nil =>
    intro s t l₁ l₂ h
    have hlen := congrArg List.length h
    simp [executedTypes, runTrace] at hlen
    omega
  | cons c cs' ih =>
    intro s t l₁ l₂ h
    rw [executedTypes_cons] at h
    match l₁, h with
    | [], h =>
      rw [List.nil_append, List.replicate_succ, List.cons_append,
        List.cons.injEq] at h
      obtain ⟨he, hrest⟩ := h
      have hlast' : (updateMovement true true mx c s).2.last_movement_type = some t := by
        rw [(updateMovement_exec true true mx c s).1, he]
      have hcnt : 1 ≤ (updateMovement true true mx c s).2.count t := by
        rw [← he]
        exact (updateMovement_exec true true mx c s).2
      rcases runTrace_run_prefix mx hmx mx cs' _ t l₂ hlast' hrest with h0 | hsum
      · omega
      · omega
    | a :: l₁', h =>
      rw [List.cons_append, List.cons.injEq] at h
      exact ih _ t l₁' l₂ h.2

/-- C1: in every run with both movement styles enabled and
`max_consecutive ≥ 1`, immediately after each iteration's counter update
and overflow correction the consecutive-run counter of the executed style
is at most `max_consecutive`; equivalently, the executed sequence never
contains `max_consecutive + 1` consecutive movements of one style. -/
theorem max_consecutive_enforced (mx : ℕ) (cs : List MType) (hmx : 1 ≤ mx) :
    (∀ p ∈ runTrace true true mx initRunState cs, p.2.count p.1 ≤ mx) ∧
    ∀ (t : MType) (l₁ l₂ : List MType),
      executedTypes true true mx initRunState cs ≠
        l₁ ++ (List.replicate (mx + 1) t ++ l₂) :=
  ⟨fun p hp => runTrace_count_le mx hmx cs initRunState p hp,
   fun t l₁ l₂ => runTrace_no_long_run mx hmx cs initRunState t l₁ l₂⟩

/-- Witness for C1: with `max_consecutive = 3` and choices
`[linear, linear]`, the state after the second iteration has the executed
style's counter (2) within the maximum. -/
theorem max_consecutive_enforced_witness :
    ((⟨2, 0, some MType.linear⟩ : RunState)).count MType.linear ≤ 3 :=
  (max_consecutive_enforced 3 [MType.linear, MType.linear] (by decide)).1
    (MType.linear, ⟨2, 0, some MType.linear⟩) (by decide)

/-- All states reached along any run satisfy the exclusivity invariant. -/
theorem runTrace_stateInv (ul ub : Bool) (mx : ℕ) :
    ∀ (cs : List MType) (s : RunState), stateInv s →
      ∀ p ∈ runTrace ul ub mx s cs,
        p.2.last_movement_type = some p.1 ∧
          1 ≤ p.2.count p.1 ∧ p.2.count p.1.other = 0 := by
  intro cs
  induction cs with
  | nil =>
    intro s _ p hp
    simp [runTrace] at hp
  | cons c cs' ih =>
    intro s hs p hp
    rw [runTrace_cons] at hp
    rcases List.mem_cons.mp hp with rfl | hp'
    · have hlast := (updateMovement_exec ul ub mx c s).1
      have hinv := updateMovement_stateInv ul ub mx c s hs
      exact ⟨hlast, hinv _ hlast⟩
    · exact ih _ (updateMovement_stateInv ul ub mx c s hs) p hp'

/-- C9: starting from the loop-entry state, after every iteration's counter
update (overflow branch included, and also when only one style is enabled)
the counter of the style just executed (= `last_movement_type`) is at
least 1, the other style's counter is 0, and hence at most one of the two
counters is nonzero. -/
theorem consecutive_counters_exclusive (ul ub : Bool) (mx : ℕ) (cs : List MType)
    (p : MType × RunState) (hp : p ∈ runTrace ul ub mx initRunState cs) :
    p.2.last_movement_type = some p.1 ∧
    1 ≤ p.2.count p.1 ∧ p.2.count p.1.other = 0 ∧
    (p.2.linear_count = 0 ∨ p.2.bezier_count = 0) := by
  obtain ⟨h1, h2, h3⟩ := runTrace_stateInv ul ub mx cs initRunState stateInv_init p hp
  refine ⟨h1, h2, h3, ?_⟩
  cases hq : p.1 <;> rw [hq] at h3 <;>
    simp only [MType.other, RunState.count] at h3
  · exact Or.inr h3
  · exact Or.inl h3

/-- Witness for C9: one `bezier` iteration with only the bezier style
enabled, from the loop-entry state. -/
theorem consecutive_counters_exclusive_witness :
    ((⟨0, 1, some MType.bezier⟩ : RunState)).last_movement_type = some MType.bezier ∧
    1 ≤ ((⟨0, 1, some MType.bezier⟩ : RunState)).count MType.bezier ∧
    ((⟨0, 1, some MType.bezier⟩ : RunState)).count MType.bezier.other = 0 ∧
    (((⟨0, 1, some MType.bezier⟩ : RunState)).linear_count = 0 ∨
      ((⟨0, 1, some MType.bezier⟩ : RunState)).bezier_count = 0) :=
  consecutive_counters_exclusive false true 3 [MType.bezier]
    (MType.bezier, ⟨0, 1, some MType.bezier⟩) (by decide)

/-! ## C8: process exit codes -/

/-- C8 counterexample: an unrecoverable platform error raised inside the
run loop is caught by `except Exception` (main.py 519-521) and `main`
returns normally, so the process exits 0 — not non-zero as claimed. -/
theorem mainExitCode_platform_error_zero :
    mainExitCode true (LoopOutcome.raised "An error occurred: xdotool failure") = 0 := rfl

/-- C8 (amended): the process exits 0 on a user-requested interrupt
regardless of what step was in progress, but it also exits 0 when any
other exception (including an unrecoverable platform error) escapes the
run loop; the only non-zero exit is the startup dependency check
(`sys.exit(1)`, main.py 432). -/
theorem mainExitCode_spec :
    mainExitCode true LoopOutcome.interrupted = 0 ∧
    (∀ msg, mainExitCode true (LoopOutcome.raised msg) = 0) ∧
    (∀ outcome, mainExitCode false outcome = 1) :=
  ⟨rfl, fun _ => rfl, fun outcome => by cases outcome <;> rfl⟩

end MouseSim
